import Mathlib

/-!
Verification of the `hashy` directory-hashing pipeline.

The development shallowly embeds the program's components:

* `sha1Hex` — the SHA-1 digest (as used through the `sha1` crate by
  `processor::process`), computed over a byte list and rendered as a
  lowercase hexadecimal string.  The crate's incremental accumulator
  (`Sha1::new` / `update` / `digest().to_string()`) is modelled by the
  list of all bytes fed so far, digested at the end.
* `inspect` / `ContentType` — a model of the external `content_inspector`
  crate used for content classification.
* `processLoop` / `process` — `processor::process`: the read loop over a
  1 MiB buffer, driven here by an explicit trace of `read` results.
* `startIter` — `main::start_iter`: the directory walker.
* `printHash` — `main::print_hash`.
* `Progress` / `aggStep` — the aggregator loop of `main`, with the
  counters of `progress::Progress`.

Bytes are `Nat` (values < 256 in every real trace); paths are lists of
components rendered with `/` separators; `canonicalize` is modelled as the
identity on the already-absolute component lists (the model filesystem has
no symlinks); a Rust `panic!` / `expect` failure is an `Except.error`.
-/

/-! ## SHA-1 over byte lists -/

/-- Truncation to a 32-bit word. -/
def w32 (x : Nat) : Nat := x % 4294967296

/-- 32-bit left rotation by `s` (for `0 < s < 32` and `x < 2^32`). -/
def rotl (s x : Nat) : Nat :=
  ((x <<< s) ||| (x >>> (32 - s))) % 4294967296

/-- The SHA-1 round function `f_t(b,c,d)`. -/
def sha1F (t b c d : Nat) : Nat :=
  if t < 20 then (b &&& c) ||| ((4294967295 ^^^ b) &&& d)
  else if t < 40 then b ^^^ c ^^^ d
  else if t < 60 then (b &&& c) ||| (b &&& d) ||| (c &&& d)
  else b ^^^ c ^^^ d

/-- The SHA-1 round constant `K_t`. -/
def sha1K (t : Nat) : Nat :=
  if t < 20 then 0x5A827999
  else if t < 40 then 0x6ED9EBA1
  else if t < 60 then 0x8F1BBCDC
  else 0xCA62C1D6

/-- Expand the 16 words of a block to the 80-word message schedule. -/
def expandW (ws : List Nat) : List Nat :=
  (List.range 64).foldl
    (fun acc _ =>
      let L := acc.length
      acc ++ [w32 (rotl 1
        (acc.getD (L - 3) 0 ^^^ acc.getD (L - 8) 0 ^^^
         acc.getD (L - 14) 0 ^^^ acc.getD (L - 16) 0))])
    ws

/-- One SHA-1 compression: 80 rounds over schedule `ws`, added to `h`. -/
def sha1Compress (h : Nat × Nat × Nat × Nat × Nat) (ws : List Nat) :
    Nat × Nat × Nat × Nat × Nat :=
  let r := (List.range 80).foldl
    (fun (p : Nat × Nat × Nat × Nat × Nat) t =>
      let a := p.1; let b := p.2.1; let c := p.2.2.1
      let d := p.2.2.2.1; let e := p.2.2.2.2
      let temp := w32 (rotl 5 a + sha1F t b c d + e + sha1K t + ws.getD t 0)
      (temp, a, rotl 30 b, c, d))
    h
  (w32 (h.1 + r.1), w32 (h.2.1 + r.2.1), w32 (h.2.2.1 + r.2.2.1),
   w32 (h.2.2.2.1 + r.2.2.2.1), w32 (h.2.2.2.2 + r.2.2.2.2))

/-- SHA-1 padding: `0x80`, zeros to 56 mod 64, then the 64-bit bit length. -/
def sha1Pad (msg : List Nat) : List Nat :=
  let bitLen := msg.length * 8
  msg ++ [0x80] ++ List.replicate ((119 - msg.length % 64) % 64) 0 ++
    [bitLen >>> 56 % 256, bitLen >>> 48 % 256, bitLen >>> 40 % 256,
     bitLen >>> 32 % 256, bitLen >>> 24 % 256, bitLen >>> 16 % 256,
     bitLen >>> 8 % 256, bitLen % 256]

/-- Split a byte list into 64-byte blocks (structural recursion on a fuel
    bound; each step consumes at least one byte, so the list's length is
    enough fuel). -/
def toBlocksAux : Nat → List Nat → List (List Nat)
  | _, [] => []
  | 0, _ :: _ => []
  | fuel + 1, b :: tl =>
      (b :: tl).take 64 :: toBlocksAux fuel ((b :: tl).drop 64)

/-- Split a byte list into 64-byte blocks. -/
def toBlocks (l : List Nat) : List (List Nat) := toBlocksAux l.length l

/-- Big-endian 4-byte groups to 32-bit words. -/
def bytesToWords : List Nat → List Nat
  | a :: b :: c :: d :: rest =>
      (a <<< 24 + b <<< 16 + c <<< 8 + d) :: bytesToWords rest
  | _ => []

/-- SHA-1 of a byte list, as the five 32-bit state words. -/
def sha1Words (msg : List Nat) : Nat × Nat × Nat × Nat × Nat :=
  (toBlocks (sha1Pad msg)).foldl
    (fun h block => sha1Compress h (expandW (bytesToWords block)))
    (0x67452301, 0xEFCDAB89, 0x98BADCFE, 0x10325476, 0xC3D2E1F0)

/-- Big-endian bytes of a 32-bit word. -/
def wordBytes (w : Nat) : List Nat :=
  [w >>> 24 % 256, w >>> 16 % 256, w >>> 8 % 256, w % 256]

/-- The 20 digest bytes of SHA-1. -/
def digestBytes (msg : List Nat) : List Nat :=
  let h := sha1Words msg
  wordBytes h.1 ++ wordBytes h.2.1 ++ wordBytes h.2.2.1 ++
    wordBytes h.2.2.2.1 ++ wordBytes h.2.2.2.2

/-- The sixteen lowercase hexadecimal digits, `0`–`9` then `a`–`f`
    (codepoints 48–57 and 97–102). -/
def hexChars : List Char :=
  (List.range 16).map fun n =>
    Char.ofNat (if n < 10 then 48 + n else 87 + n)

/-- Hexadecimal digit for a value below 16. -/
def hexDigit (n : Nat) : Char := hexChars.getD n '0'

/-- Two lowercase hex digits of a byte. -/
def byteHex (b : Nat) : List Char := [hexDigit (b / 16 % 16), hexDigit (b % 16)]

/-- SHA-1 digest as a lowercase hexadecimal string
    (`sha1::Sha1::digest().to_string()`). -/
def sha1Hex (msg : List Nat) : String :=
  String.mk ((digestBytes msg).foldr (fun b acc => byteHex b ++ acc) [])

/-! ## Content classification (`content_inspector` crate) -/

/-- `content_inspector::ContentType`. -/
inductive ContentType
  | BINARY
  | UTF_8
  | UTF_8_BOM
  | UTF_16LE
  | UTF_16BE
  | UTF_32LE
  | UTF_32BE
deriving DecidableEq, Repr

/-- Rust `format!("{:?}", ct)` on a `ContentType`. -/
def ctDebug : ContentType → String
  | ContentType.BINARY => "BINARY"
  | ContentType.UTF_8 => "UTF_8"
  | ContentType.UTF_8_BOM => "UTF_8_BOM"
  | ContentType.UTF_16LE => "UTF_16LE"
  | ContentType.UTF_16BE => "UTF_16BE"
  | ContentType.UTF_32LE => "UTF_32LE"
  | ContentType.UTF_32BE => "UTF_32BE"

/-- Model of the external `content_inspector::inspect`: byte-order-mark
    sniffing first (longer marks before their two-byte prefixes), then a
    null-byte scan — a buffer containing `0x00` is `BINARY`, anything else
    is `UTF_8`.  No claim depends on the internals of this classifier; it
    only needs to be a fixed function of the bytes it is given. -/
def inspect (buffer : List Nat) : ContentType :=
  if [0xEF, 0xBB, 0xBF].isPrefixOf buffer then ContentType.UTF_8_BOM
  else if [0xFF, 0xFE, 0x00, 0x00].isPrefixOf buffer then ContentType.UTF_32LE
  else if [0x00, 0x00, 0xFE, 0xFF].isPrefixOf buffer then ContentType.UTF_32BE
  else if [0xFF, 0xFE].isPrefixOf buffer then ContentType.UTF_16LE
  else if [0xFE, 0xFF].isPrefixOf buffer then ContentType.UTF_16BE
  else if buffer.contains 0 then ContentType.BINARY
  else ContentType.UTF_8

/-! ## `processor::ParsedFile` -/

/-- `processor::ParsedFile` (field order as in the struct; `content` is the
    byte buffer accumulated for non-binary files). -/
structure ParsedFile where
  hash : String
  content_type : Option ContentType
  content : List Nat
deriving DecidableEq, Repr

/-- Continuation-byte check `0x80 ≤ b < 0xC0`. -/
def utf8Cont (b : Nat) : Bool := decide (128 ≤ b ∧ b < 192)

/-- UTF-8 validity of a byte list, as checked by Rust
    `str::from_utf8` (RFC 3629: no overlongs, no surrogates, max U+10FFFF).
    The first argument is fuel, always called with the list length. -/
def utf8ValidAux : Nat → List Nat → Bool
  | _, [] => true
  | 0, _ :: _ => false
  | fuel + 1, b :: rest =>
    if b < 128 then utf8ValidAux fuel rest
    else if b < 194 then false
    else if b < 224 then
      match rest with
      | c :: r => utf8Cont c && utf8ValidAux fuel r
      | [] => false
    else if b < 240 then
      match rest with
      | c :: d :: r =>
          let lo := if b = 224 then 160 else 128
          let hi := if b = 237 then 160 else 192
          decide (lo ≤ c ∧ c < hi) && utf8Cont d && utf8ValidAux fuel r
      | _ => false
    else if b < 245 then
      match rest with
      | c :: d :: e :: r =>
          let lo := if b = 240 then 144 else 128
          let hi := if b = 244 then 144 else 192
          decide (lo ≤ c ∧ c < hi) && utf8Cont d && utf8Cont e &&
            utf8ValidAux fuel r
      | _ => false
    else false

/-- UTF-8 validity of a byte list. -/
def utf8Valid (l : List Nat) : Bool := utf8ValidAux l.length l

/-- `ParsedFile::str_content`.  A `&str` is modelled by its bytes:
    `str::from_utf8(content).unwrap_or("")` is `content` when valid UTF-8
    and `[]` otherwise.  The `panic!` on the UTF-32 arms is an
    `Except.error`. -/
def strContent (pf : ParsedFile) : Except String (Option (List Nat)) :=
  match pf.content_type with
  | none => Except.ok none
  | some ContentType.BINARY => Except.ok none
  | some ContentType.UTF_8 | some ContentType.UTF_8_BOM =>
      Except.ok (some (if utf8Valid pf.content then pf.content else []))
  | some ContentType.UTF_16LE | some ContentType.UTF_16BE =>
      Except.ok (some (if utf8Valid pf.content then pf.content else []))
  | some ContentType.UTF_32LE | some ContentType.UTF_32BE =>
      Except.error "utf-32 is not handled yet"

/-! ## `processor::process` -/

/-- One answer of `file.read(&mut buffer)`: `ok bytes` for `Ok(n)` with
    `bytes` the `n` bytes read (`n ≤ 2^20`, the buffer size), `err` for
    `Err(_)`. -/
inductive ReadResult
  | ok (bytes : List Nat)
  | err
deriving DecidableEq, Repr

/-- The read loop of `processor::process`, over the trace of `read`
    results.  `hashData` is the accumulator state of the `Sha1` hasher
    (the bytes fed so far), `ct` the `content_type` variable, `content`
    the `content` buffer.  `Ok(0)` ends the file successfully; `Err(_)`
    aborts with `None`; a trace that never reaches either yields `none`
    (a real file always ends in one of the two). -/
def processLoop :
    List ReadResult → List Nat → Option ContentType → List Nat →
      Option ParsedFile
  | [], _, _, _ => none
  | ReadResult.err :: _, _, _, _ => none
  | ReadResult.ok chunk :: rest, hashData, ct, content =>
      if chunk = [] then some ⟨sha1Hex hashData, ct, content⟩
      else
        let ct := match ct with
          | none => some (inspect (chunk.take 1024))
          | some x => some x
        let content :=
          if ct ≠ some ContentType.BINARY then content ++ chunk else content
        processLoop rest (hashData ++ chunk) ct content

/-- `processor::process`: `none` for the whole file models a failed
    `open` (the `.ok()?`), otherwise the read loop runs on the trace. -/
def process (file : Option (List ReadResult)) : Option ParsedFile :=
  match file with
  | none => none
  | some trace => processLoop trace [] none []

/-- The bytes a trace delivers before its terminator (`Ok(0)` or error). -/
def readBytes : List ReadResult → List Nat
  | [] => []
  | ReadResult.err :: _ => []
  | ReadResult.ok chunk :: rest =>
      if chunk = [] then [] else chunk ++ readBytes rest

/-- Whether the read loop ends in failure on this trace (an `Err` before
    any `Ok(0)`, or a trace that never terminates). -/
def traceFails : List ReadResult → Bool
  | [] => true
  | ReadResult.err :: _ => true
  | ReadResult.ok chunk :: rest =>
      if chunk = [] then false else traceFails rest

/-- The `read` trace of a regular file with byte contents `c`: full
    1 MiB chunks until the end of the file, then `Ok(0)` (structural
    recursion on a fuel bound; each step consumes at least one byte). -/
def chunkifyAux : Nat → List Nat → List ReadResult
  | _, [] => [ReadResult.ok []]
  | 0, _ :: _ => []
  | fuel + 1, b :: tl =>
      ReadResult.ok ((b :: tl).take 1048576) ::
        chunkifyAux fuel ((b :: tl).drop 1048576)

/-- The `read` trace of a regular file with byte contents `c`. -/
def chunkify (c : List Nat) : List ReadResult := chunkifyAux c.length c

/-- `processor::process` on a regular file with contents `c`. -/
def processFile (c : List Nat) : Option ParsedFile :=
  processLoop (chunkify c) [] none []

/-! ## The walker (`main::start_iter`) -/

/-- The kind of a filesystem entry, as `walkdir`'s `file_type` would
    report it.  `start_iter` never consults it. -/
inductive EntryKind
  | file
  | dir
  | symlink
deriving DecidableEq, Repr

/-- A successfully yielded `walkdir::DirEntry`. -/
structure DirEntry where
  path : List String
  kind : EntryKind
deriving DecidableEq, Repr

/-- `main::Work`.  The channel sender carried by `Work::Directory` is not
    data and is dropped from the model; `Work::Parsed` keeps its
    `ParsedFile`, path and index. -/
inductive Work
  | directory (path : List String) (index : Nat)
  | parsed (entry : ParsedFile) (path : List String) (index : Nat)
  | empty (index : Nat)
  | discoveryComplete (count : Nat)
deriving DecidableEq, Repr

/-- `main::start_iter`, as the list of messages sent on the channel.  The
    input is the sequence `walkdir::WalkDir::new(working_dir)` yields:
    `none` for an `Err` entry (dropped by `.filter_map(|x| x.ok())`),
    `some e` for an `Ok` one.  The loop sends a `Work::Directory` per
    entry and keeps `count = index`; after the loop it sends
    `Work::DiscoveryComplete { count }`. -/
def startIter (entries : List (Option DirEntry)) : List Work :=
  let iter := entries.filterMap id
  let fold := iter.enum.foldl
    (fun (acc : List Work × Nat) (p : Nat × DirEntry) =>
      (acc.1 ++ [Work.directory p.2.path p.1], p.1))
    ([], 0)
  fold.1 ++ [Work.discoveryComplete fold.2]

/-- The worker closure spawned for a `Work::Directory` message
    (`main.rs` lines 109–123): run `processor::process` and send back
    exactly one message — `Work::Parsed` on `Some`, `Work::Empty` on
    `None`. -/
def workerSend (file : Option (List ReadResult)) (path : List String)
    (index : Nat) : List Work :=
  match process file with
  | none => [Work.empty index]
  | some entry => [Work.parsed entry path index]

/-! ## Output (`main::Output`, `main::print_hash`) -/

/-- `main::Output`: the sink variant, with the canonicalized working
    directory for the console variant.  The writers themselves carry no
    state the claims observe. -/
inductive Output
  | file
  | stdout (working_dir : List String)
deriving DecidableEq, Repr

/-- `Path::display`, on component lists. -/
def pathDisplay (p : List String) : String := String.intercalate "/" p

/-- The `content_type` string of `main::print_hash`:
    `format!("{:?}", ct)` or `"EMPTY"`. -/
def contentTypeLabel (entry : ParsedFile) : String :=
  match entry.content_type with
  | some x => ctDebug x
  | none => "EMPTY"

/-- `main::print_hash`: the line written for one `ParsedFile`, or the
    panic it raises.  `canonicalize` is the identity here (paths are
    already absolute component lists and the model filesystem has no
    symlinks); `strip_prefix` failure is the `expect` panic. -/
def printHash (output : Output) (entry : ParsedFile) (path : List String) :
    Except String String :=
  let content_type := contentTypeLabel entry
  match output with
  | Output.file =>
      Except.ok (entry.hash ++ "," ++ content_type ++ "," ++ pathDisplay path)
  | Output.stdout working_dir =>
      let absolute_path := path
      if working_dir.isPrefixOf absolute_path then
        Except.ok (entry.hash ++ " " ++ content_type ++ " " ++
          pathDisplay (absolute_path.drop working_dir.length))
      else Except.error "Could not generate relative path"

/-! ## Progress counters and the aggregator loop -/

/-- The counters of `progress::Progress` (the progress-bar rendering is
    display-only and carries no further state the claims observe). -/
structure Progress where
  count : Nat
  success : Nat
deriving DecidableEq, Repr

/-- `Progress::inc`. -/
def Progress.inc (p : Progress) : Progress := { p with count := p.count + 1 }

/-- `Progress::inc_success`: calls `inc`, then bumps `success`. -/
def Progress.incSuccess (p : Progress) : Progress :=
  let q := p.inc
  { q with success := q.success + 1 }

/-- The aggregator's state: the progress counters and the result lines
    written to the sink so far. -/
structure AggState where
  pb : Progress
  lines : List String
deriving DecidableEq, Repr

/-- One iteration of the receive loop in `main` (lines 107–144), for the
    message kinds that touch aggregator state.  `Work::Directory` only
    dispatches a worker and `Work::DiscoveryComplete` only rebuilds the
    progress display; neither changes counters or output.  On
    `Work::Parsed` the code writes the line (`print_hash`), reads
    `str_content` for the indexer, then `inc_success`; either call can
    panic, modelled as `Except.error`.  On `Work::Empty` it calls `inc`. -/
def aggStep (output : Output) (st : AggState) : Work → Except String AggState
  | Work.directory _ _ => Except.ok st
  | Work.discoveryComplete _ => Except.ok st
  | Work.empty _ => Except.ok ⟨st.pb.inc, st.lines⟩
  | Work.parsed entry path _ =>
      match printHash output entry path with
      | Except.error e => Except.error e
      | Except.ok line =>
          match strContent entry with
          | Except.error e => Except.error e
          | Except.ok _ =>
              Except.ok ⟨st.pb.incSuccess, st.lines ++ [line]⟩

/-- Whether an `Except` is the error (panic) case. -/
def isErr {ε α : Type} : Except ε α → Bool
  | Except.error _ => true
  | Except.ok _ => false

/-! ## Helper lemmas -/

/-- The digest reported by the read loop is the SHA-1 of everything fed to
    the hasher: the prior accumulator contents followed by the bytes the
    trace delivers. -/
theorem processLoop_hash :
    ∀ (t : List ReadResult) (h0 : List Nat) (ct : Option ContentType)
      (c : List Nat) (pf : ParsedFile),
      processLoop t h0 ct c = some pf →
      pf.hash = sha1Hex (h0 ++ readBytes t) := by
  intro t
  induction t with
  | nil => intro h0 ct c pf h; simp [processLoop] at h
  | cons r rest ih =>
    intro h0 ct c pf h
    cases r with
    | err => simp [processLoop] at h
    | ok chunk =>
      by_cases hc : chunk = []
      · subst hc
        simp [processLoop] at h
        simp [readBytes, ← h]
      · simp only [processLoop, if_neg hc] at h
        rw [ih _ _ _ _ h]
        simp [readBytes, if_neg hc, List.append_assoc]

/-- Once the `content_type` variable is set, no later chunk revises it. -/
theorem processLoop_ct_stable :
    ∀ (t : List ReadResult) (h0 : List Nat) (x : ContentType)
      (c : List Nat) (pf : ParsedFile),
      processLoop t h0 (some x) c = some pf →
      pf.content_type = some x := by
  intro t
  induction t with
  | nil => intro h0 x c pf h; simp [processLoop] at h
  | cons r rest ih =>
    intro h0 x c pf h
    cases r with
    | err => simp [processLoop] at h
    | ok chunk =>
      by_cases hc : chunk = []
      · subst hc
        simp [processLoop] at h
        simp [← h]
      · simp only [processLoop, if_neg hc] at h
        exact ih _ _ _ _ h

/-- The read loop yields `none` exactly on failing traces. -/
theorem processLoop_eq_none_iff :
    ∀ (t : List ReadResult) (h0 : List Nat) (ct : Option ContentType)
      (c : List Nat),
      processLoop t h0 ct c = none ↔ traceFails t = true := by
  intro t
  induction t with
  | nil => intro h0 ct c; simp [processLoop, traceFails]
  | cons r rest ih =>
    intro h0 ct c
    cases r with
    | err => simp [processLoop, traceFails]
    | ok chunk =>
      by_cases hc : chunk = []
      · subst hc; simp [processLoop, traceFails]
      · simp only [processLoop, if_neg hc, traceFails]
        exact ih _ _ _

/-- A cons list's `take` at a positive count is nonempty. -/
theorem take_cons_ne_nil (b : Nat) (tl : List Nat) :
    (b :: tl).take 1048576 ≠ [] := by
  intro hnil
  rcases List.take_eq_nil_iff.mp hnil with h1 | h1
  · exact absurd h1 (by norm_num)
  · exact List.cons_ne_nil _ _ h1

/-- A regular file's canonical trace delivers exactly its contents. -/
theorem readBytes_chunkifyAux :
    ∀ (n : Nat) (c : List Nat), c.length ≤ n →
      readBytes (chunkifyAux n c) = c := by
  intro n
  induction n with
  | zero =>
    intro c hc
    have hcnil : c = [] := List.length_eq_zero.mp (Nat.le_zero.mp hc)
    subst hcnil
    simp [chunkifyAux, readBytes]
  | succ n ih =>
    intro c hc
    cases c with
    | nil => simp [chunkifyAux, readBytes]
    | cons b tl =>
      rw [chunkifyAux, readBytes, if_neg (take_cons_ne_nil b tl),
        ih _ (by simp [List.length_drop] at hc ⊢; omega)]
      exact List.take_append_drop _ _

/-- A regular file's canonical trace delivers exactly its contents. -/
theorem readBytes_chunkify (c : List Nat) : readBytes (chunkify c) = c :=
  readBytes_chunkifyAux c.length c (Nat.le_refl _)

/-- A regular file's canonical trace never fails. -/
theorem traceFails_chunkifyAux :
    ∀ (n : Nat) (c : List Nat), c.length ≤ n →
      traceFails (chunkifyAux n c) = false := by
  intro n
  induction n with
  | zero =>
    intro c hc
    have hcnil : c = [] := List.length_eq_zero.mp (Nat.le_zero.mp hc)
    subst hcnil
    simp [chunkifyAux, traceFails]
  | succ n ih =>
    intro c hc
    cases c with
    | nil => simp [chunkifyAux, traceFails]
    | cons b tl =>
      rw [chunkifyAux, traceFails, if_neg (take_cons_ne_nil b tl)]
      exact ih _ (by simp [List.length_drop] at hc ⊢; omega)

/-- A regular file's canonical trace never fails. -/
theorem traceFails_chunkify (c : List Nat) :
    traceFails (chunkify c) = false :=
  traceFails_chunkifyAux c.length c (Nat.le_refl _)

/-- `processor::process` on a regular file: it succeeds, its digest is the
    SHA-1 of the whole contents, and its classification is that of the
    first 1024 bytes (`none` for the empty file). -/
theorem processFile_spec (c : List Nat) :
    ∃ pf, processFile c = some pf ∧ pf.hash = sha1Hex c ∧
      pf.content_type =
        if c = [] then none else some (inspect (c.take 1024)) := by
  have hsome : processFile c ≠ none := by
    intro h
    have := (processLoop_eq_none_iff (chunkify c) [] none []).mp h
    rw [traceFails_chunkify c] at this
    exact Bool.false_ne_true this
  obtain ⟨pf, hpf⟩ := Option.ne_none_iff_exists'.mp hsome
  refine ⟨pf, hpf, ?_, ?_⟩
  · have := processLoop_hash (chunkify c) [] none [] pf hpf
    rwa [List.nil_append, readBytes_chunkify c] at this
  · cases c with
    | nil =>
      rw [processFile, chunkify] at hpf
      simp [chunkifyAux, processLoop] at hpf
      simp [← hpf, if_pos rfl]
    | cons b tl =>
      rw [processFile, chunkify, List.length_cons, chunkifyAux] at hpf
      simp only [processLoop, if_neg (take_cons_ne_nil b tl)] at hpf
      have := processLoop_ct_stable _ _ _ _ _ hpf
      rw [this, if_neg (List.cons_ne_nil b tl), List.take_take]
      norm_num

/-- Two lowercase hex digits per byte. -/
theorem foldr_byteHex_length (l : List Nat) :
    (l.foldr (fun b acc => byteHex b ++ acc) []).length = 2 * l.length := by
  induction l with
  | nil => rfl
  | cons b t ih =>
    rw [List.foldr_cons, List.length_append, ih]
    show 2 + 2 * t.length = 2 * (b :: t).length
    rw [List.length_cons]
    omega

/-- SHA-1 yields 20 digest bytes. -/
theorem digestBytes_length (msg : List Nat) :
    (digestBytes msg).length = 20 := by
  simp [digestBytes, wordBytes]

/-- The rendered digest has 40 characters (a 160-bit value in hex). -/
theorem sha1Hex_length (msg : List Nat) : (sha1Hex msg).length = 40 := by
  have h : (sha1Hex msg).length =
      ((digestBytes msg).foldr (fun b acc => byteHex b ++ acc) []).length :=
    rfl
  rw [h, foldr_byteHex_length, digestBytes_length]

/-- `hexDigit` only produces the sixteen lowercase hex digits. -/
theorem hexDigit_mem (n : Nat) : hexDigit n ∈ hexChars := by
  unfold hexDigit
  by_cases h : n < 16
  · interval_cases n <;> decide
  · rw [List.getD_eq_default]
    · decide
    · simp [hexChars]; omega

/-- Every character the fold emits is a lowercase hex digit. -/
theorem mem_foldr_byteHex (l : List Nat) (ch : Char)
    (h : ch ∈ l.foldr (fun b acc => byteHex b ++ acc) []) :
    ch ∈ hexChars := by
  induction l with
  | nil => simp at h
  | cons b t ih =>
    simp only [List.foldr_cons, byteHex, List.cons_append, List.nil_append,
      List.mem_cons] at h
    rcases h with h | h | h
    · rw [h]; exact hexDigit_mem _
    · rw [h]; exact hexDigit_mem _
    · exact ih h

/-- The rendered digest is lowercase hexadecimal. -/
theorem sha1Hex_chars (msg : List Nat) :
    ∀ ch ∈ (sha1Hex msg).data, ch ∈ hexChars := by
  intro ch h
  exact mem_foldr_byteHex _ _ h

/-- The fold in `startIter`, solved: tasks in order, and the counter left
    at the first component of the last pair (the loop's `count = index`). -/
theorem startIter_foldl (l : List (Nat × DirEntry)) (acc : List Work)
    (c : Nat) :
    l.foldl
      (fun (acc : List Work × Nat) (p : Nat × DirEntry) =>
        (acc.1 ++ [Work.directory p.2.path p.1], p.1)) (acc, c) =
      (acc ++ l.map fun p => Work.directory p.2.path p.1,
       (l.map Prod.fst).getLastD c) := by
  induction l generalizing acc c with
  | nil => simp
  | cons p t ih =>
    rw [List.foldl_cons, ih, List.map_cons, List.map_cons,
      List.getLastD_cons, Prod.mk.injEq]
    exact ⟨by simp, rfl⟩

/-- The walker's counter after enumerating from `n`: untouched for no
    entries, else the index of the last entry. -/
theorem enumFrom_fst_getLastD (l : List DirEntry) :
    ∀ (n c : Nat),
      ((List.enumFrom n l).map Prod.fst).getLastD c =
        if l = [] then c else n + l.length - 1 := by
  induction l with
  | nil => intro n c; simp
  | cons a t ih =>
    intro n c
    rw [List.enumFrom_cons, List.map_cons, List.getLastD_cons, ih]
    by_cases h : t = []
    · simp [h]
    · rw [if_neg h, if_neg (by simp), List.length_cons]
      omega

/-- `start_iter`, solved: one `Work::Directory` per `Ok` entry in order
    with its enumeration index, then `Work::DiscoveryComplete` carrying
    `count = (number of entries) - 1` (and `0` for no entries) — the last
    value the loop assigned, not the number of tasks sent. -/
theorem startIter_eq (entries : List (Option DirEntry)) :
    startIter entries =
      ((entries.filterMap id).enum.map fun p =>
          Work.directory p.2.path p.1) ++
        [Work.discoveryComplete ((entries.filterMap id).length - 1)] := by
  have h := startIter_foldl (entries.filterMap id).enum [] 0
  simp only [startIter, h, List.nil_append]
  rw [List.enum]
  rw [enumFrom_fst_getLastD]
  by_cases he : entries.filterMap id = []
  · simp [he]
  · rw [if_neg he]
    simp

/-- Every `Ok` entry of the traversal gets a `Work::Directory` task. -/
theorem startIter_task_mem {entries : List (Option DirEntry)} {e : DirEntry}
    (h : some e ∈ entries) :
    ∃ i, Work.directory e.path i ∈ startIter entries := by
  have he : e ∈ entries.filterMap id := List.mem_filterMap.mpr ⟨some e, h, rfl⟩
  obtain ⟨i, hi⟩ := List.mem_iff_getElem?.mp he
  refine ⟨i, ?_⟩
  rw [startIter_eq]
  apply List.mem_append_left
  exact List.mem_map_of_mem _ (List.mk_mem_enum_iff_getElem?.mpr hi)

/-! ## The claims -/

/-- C1, counterexample to the claim as stated: with the output
    destination `scan/out.csv` lying inside the scanned tree, the walker
    emits a `DiscoveryTask` (`Work::Directory`) for it — `start_iter`
    consults no output destination at all. -/
theorem claim_C1_counterexample :
    Work.directory ["scan", "out.csv"] 1 ∈
      startIter [some ⟨["scan"], EntryKind.dir⟩,
        some ⟨["scan", "out.csv"], EntryKind.file⟩] := by
  decide

/-- C1 (amended): the walker performs no self-exclusion: every entry the
    traversal yields `Ok` is emitted as a `DiscoveryTask`, including an
    entry whose path is the configured output destination; such a file is
    therefore hashed like any other. -/
theorem claim_C1_no_self_exclusion (out : List String)
    (entries : List (Option DirEntry)) (e : DirEntry)
    (hmem : some e ∈ entries) (hpath : e.path = out) :
    ∃ i, Work.directory out i ∈ startIter entries := by
  subst hpath
  exact startIter_task_mem hmem

/-- C1, witness: the amended statement at a concrete traversal. -/
theorem claim_C1_witness :
    ∃ i, Work.directory ["scan", "результат.csv"] i ∈
      startIter [some ⟨["scan"], EntryKind.dir⟩,
        some ⟨["scan", "результат.csv"], EntryKind.file⟩,
        some ⟨["scan", "a.txt"], EntryKind.file⟩] :=
  claim_C1_no_self_exclusion ["scan", "результат.csv"] _
    ⟨["scan", "результат.csv"], EntryKind.file⟩ (by decide) rfl

/-- C2: the count in `DiscoveryComplete` is NOT the number of
    `DiscoveryTask`s emitted.  Concretely, a traversal yielding two
    entries emits two `Work::Directory` tasks but
    `Work::DiscoveryComplete { count: 1 }`; in general the loop's
    `count = index` leaves the last zero-based index, i.e. `n - 1` for
    `n` entries (and `0` for none), never `n`. -/
theorem claim_C2_count_off_by_one :
    startIter [some ⟨["root"], EntryKind.dir⟩,
        some ⟨["root", "a.txt"], EntryKind.file⟩] =
      [Work.directory ["root"] 0, Work.directory ["root", "a.txt"] 1,
       Work.discoveryComplete 1] ∧
    ∀ entries : List (Option DirEntry),
      startIter entries =
        ((entries.filterMap id).enum.map fun p =>
            Work.directory p.2.path p.1) ++
          [Work.discoveryComplete ((entries.filterMap id).length - 1)] :=
  ⟨by decide, startIter_eq⟩

/-- C3, counterexample to the claim as stated: a directory entry — not a
    regular file — receives a `DiscoveryTask`; the walker never checks
    the entry's file type. -/
theorem claim_C3_counterexample :
    Work.directory ["root", "c"] 1 ∈
      startIter [some ⟨["root"], EntryKind.dir⟩,
        some ⟨["root", "c"], EntryKind.dir⟩] := by
  decide

/-- C3 (amended): the walker emits a `DiscoveryTask` for every entry the
    traversal yields `Ok`, regardless of kind: non-regular entries such as
    directories get tasks too (they only end up `Skipped` later, when the
    worker's open/read fails on them). -/
theorem claim_C3_tasks_for_all_kinds (entries : List (Option DirEntry))
    (e : DirEntry) (hmem : some e ∈ entries)
    (_hkind : e.kind ≠ EntryKind.file) :
    ∃ i, Work.directory e.path i ∈ startIter entries :=
  startIter_task_mem hmem

/-- C3, witness: the amended statement at a concrete traversal with a
    directory entry. -/
theorem claim_C3_witness :
    ∃ i, Work.directory ["tree", "sub"] i ∈
      startIter [some ⟨["tree"], EntryKind.dir⟩,
        some ⟨["tree", "sub"], EntryKind.dir⟩,
        some ⟨["tree", "f.txt"], EntryKind.file⟩] :=
  claim_C3_tasks_for_all_kinds _ ⟨["tree", "sub"], EntryKind.dir⟩
    (by decide) (by decide)

/-- C4: for every dispatched task the worker sends back exactly one
    completion message: `Work::Parsed` (Hashed) when the file opened and
    its trace read to the end, `Work::Empty` (Skipped) when the open
    failed or a read errored — per-file errors are converted to a
    message, never escaping the worker. -/
theorem claim_C4_exactly_one_completion (file : Option (List ReadResult))
    (path : List String) (i : Nat) :
    (workerSend file path i).length = 1 ∧
    (∀ t, file = some t → traceFails t = false →
      ∃ e, workerSend file path i = [Work.parsed e path i]) ∧
    ((file = none ∨ ∃ t, file = some t ∧ traceFails t = true) →
      workerSend file path i = [Work.empty i]) := by
  refine ⟨?_, ?_, ?_⟩
  · unfold workerSend
    cases process file <;> rfl
  · intro t ht hok
    subst ht
    simp only [workerSend, process]
    cases h : processLoop t [] none [] with
    | none =>
      rw [processLoop_eq_none_iff] at h
      rw [h] at hok
      exact absurd hok (by simp)
    | some e => exact ⟨e, rfl⟩
  · intro h
    rcases h with h | ⟨t, ht, hfail⟩
    · subst h; rfl
    · subst ht
      simp only [workerSend, process,
        (processLoop_eq_none_iff t [] none []).mpr hfail]

/-- C4, witness: a successfully read two-chunk file produces exactly a
    `Work::Parsed` message. -/
theorem claim_C4_witness :
    ∃ e, workerSend (some [ReadResult.ok [1, 2], ReadResult.ok []])
        ["p"] 3 = [Work.parsed e ["p"] 3] :=
  (claim_C4_exactly_one_completion
      (some [ReadResult.ok [1, 2], ReadResult.ok []]) ["p"] 3).2.1
    _ rfl (by decide)

/-- C5: content-type classification happens once, on the first non-empty
    chunk, from its first `min(chunk length, 1024)` bytes, and no later
    chunk revises it — whatever the remaining trace is, the classification
    is that of the first chunk's 1024-byte head; consequently two files
    agreeing on their first 1024 bytes classify identically. -/
theorem claim_C5_classification_first_chunk :
    (∀ (chunk : List Nat) (rest : List ReadResult) (h0 c : List Nat)
        (pf : ParsedFile), chunk ≠ [] →
        processLoop (ReadResult.ok chunk :: rest) h0 none c = some pf →
        pf.content_type = some (inspect (chunk.take 1024))) ∧
    (∀ c1 c2 : List Nat, c1.take 1024 = c2.take 1024 →
        (processFile c1).map ParsedFile.content_type =
          (processFile c2).map ParsedFile.content_type) := by
  constructor
  · intro chunk rest h0 c pf hne h
    simp only [processLoop, if_neg hne] at h
    exact processLoop_ct_stable _ _ _ _ _ h
  · intro c1 c2 htake
    have hnil : c1 = [] ↔ c2 = [] := by
      constructor
      · intro h
        subst h
        rcases List.take_eq_nil_iff.mp htake.symm with h1 | h1
        · exact absurd h1 (by norm_num)
        · exact h1
      · intro h
        subst h
        rcases List.take_eq_nil_iff.mp htake with h1 | h1
        · exact absurd h1 (by norm_num)
        · exact h1
    obtain ⟨pf1, h1, _, hct1⟩ := processFile_spec c1
    obtain ⟨pf2, h2, _, hct2⟩ := processFile_spec c2
    rw [h1, h2, Option.map_some', Option.map_some', hct1, hct2, htake]
    by_cases h : c1 = []
    · rw [if_pos h, if_pos (hnil.mp h)]
    · rw [if_neg h, if_neg (fun hh => h (hnil.mpr hh))]

/-- C5, witness: a 1024-byte file and its one-byte extension agree on
    their first 1024 bytes, hence classify identically. -/
theorem claim_C5_witness :
    (processFile (List.replicate 1024 65)).map ParsedFile.content_type =
      (processFile (List.replicate 1024 65 ++ [0])).map
        ParsedFile.content_type :=
  claim_C5_classification_first_chunk.2 _ _ (by
    have hlen : (1024 : Nat) ≤ (List.replicate 1024 65).length := by
      rw [List.length_replicate]
    rw [List.take_append_of_le_length hlen])

/-- C6: the reported hash is the SHA-1 digest of exactly the bytes the
    trace delivered, rendered as 40 lowercase hexadecimal characters
    (160 bits); any two successful reads delivering the same byte
    sequence — different chunkings, paths or runs — report the same
    digest string. -/
theorem claim_C6_hash_content_addressed (t : List ReadResult)
    (pf : ParsedFile) (h : processLoop t [] none [] = some pf) :
    pf.hash = sha1Hex (readBytes t) ∧
    (sha1Hex (readBytes t)).length = 40 ∧
    (∀ ch ∈ (sha1Hex (readBytes t)).data, ch ∈ hexChars) ∧
    (∀ (t2 : List ReadResult) (pf2 : ParsedFile),
        processLoop t2 [] none [] = some pf2 →
        readBytes t2 = readBytes t → pf2.hash = pf.hash) := by
  have hh := processLoop_hash t [] none [] pf h
  rw [List.nil_append] at hh
  refine ⟨hh, sha1Hex_length _, sha1Hex_chars _, ?_⟩
  intro t2 pf2 h2 hr
  have hh2 := processLoop_hash t2 [] none [] pf2 h2
  rw [List.nil_append, hr] at hh2
  rw [hh2, hh]

set_option maxRecDepth 8000 in
/-- C6, witness: the property at a concrete two-byte file read in one
    chunk. -/
theorem claim_C6_witness :
    (sha1Hex (readBytes [ReadResult.ok [104, 105], ReadResult.ok []])).length
        = 40 ∧
    (⟨sha1Hex [104, 105], some ContentType.UTF_8, [104, 105]⟩ :
        ParsedFile).hash =
      sha1Hex (readBytes [ReadResult.ok [104, 105], ReadResult.ok []]) := by
  have h := claim_C6_hash_content_addressed
    [ReadResult.ok [104, 105], ReadResult.ok []]
    ⟨sha1Hex [104, 105], some ContentType.UTF_8, [104, 105]⟩ (by decide)
  exact ⟨h.2.1, h.1⟩

/-- C7: on a `Hashed` (`Work::Parsed`) message the aggregator writes
    exactly one output line and bumps both the processed and the success
    counter; on a `Skipped` (`Work::Empty`) message it bumps only the
    processed counter and writes nothing. -/
theorem claim_C7_aggregator_counters (output : Output) (st : AggState) :
    (∀ entry path i line o,
        printHash output entry path = Except.ok line →
        strContent entry = Except.ok o →
        aggStep output st (Work.parsed entry path i) =
          Except.ok ⟨⟨st.pb.count + 1, st.pb.success + 1⟩,
            st.lines ++ [line]⟩) ∧
    (∀ i, aggStep output st (Work.empty i) =
        Except.ok ⟨⟨st.pb.count + 1, st.pb.success⟩, st.lines⟩) := by
  obtain ⟨⟨pc, ps⟩, lns⟩ := st
  constructor
  · intro entry path i line o hp hs
    simp [aggStep, hp, hs, Progress.incSuccess, Progress.inc]
  · intro i
    simp [aggStep, Progress.inc]

/-- C7, witness: one concrete `Hashed` then one concrete `Skipped`
    message, with the counters and the line list evolving as claimed. -/
theorem claim_C7_witness :
    aggStep Output.file ⟨⟨0, 0⟩, []⟩
        (Work.parsed ⟨"h", none, []⟩ ["f"] 0) =
      Except.ok ⟨⟨1, 1⟩, ["h,EMPTY,f"]⟩ ∧
    aggStep Output.file ⟨⟨1, 1⟩, ["h,EMPTY,f"]⟩ (Work.empty 1) =
      Except.ok ⟨⟨2, 1⟩, ["h,EMPTY,f"]⟩ := by
  have h1 := claim_C7_aggregator_counters Output.file ⟨⟨0, 0⟩, []⟩
  have h2 := claim_C7_aggregator_counters Output.file
    ⟨⟨1, 1⟩, ["h,EMPTY,f"]⟩
  exact ⟨h1.1 ⟨"h", none, []⟩ ["f"] 0 "h,EMPTY,f" none
      (congrArg Except.ok (by decide)) rfl,
    h2.2 1⟩

/-- C8: with a file sink every line is `hash,content-type,path`
    (comma-delimited); with the console sink every line is
    `hash content-type relative-path` with the path made relative to the
    recorded working directory, and a path outside the working directory
    raises the `strip_prefix` panic (rejected, not retried). -/
theorem claim_C8_output_line_format (entry : ParsedFile)
    (path : List String) :
    printHash Output.file entry path =
      Except.ok (entry.hash ++ "," ++ contentTypeLabel entry ++ "," ++
        pathDisplay path) ∧
    (∀ wd, wd.isPrefixOf path = true →
      printHash (Output.stdout wd) entry path =
        Except.ok (entry.hash ++ " " ++ contentTypeLabel entry ++ " " ++
          pathDisplay (path.drop wd.length))) ∧
    (∀ wd, wd.isPrefixOf path = false →
      isErr (printHash (Output.stdout wd) entry path) = true) := by
  refine ⟨rfl, ?_, ?_⟩
  · intro wd h
    simp [printHash, h]
  · intro wd h
    simp [printHash, h, isErr]

/-- C8, witness: both sink variants on a concrete record, plus the
    rejection of a path outside the working directory. -/
theorem claim_C8_witness :
    printHash (Output.stdout ["home"]) ⟨"h", some ContentType.BINARY, []⟩
        ["home", "x.bin"] = Except.ok "h BINARY x.bin" ∧
    isErr (printHash (Output.stdout ["other"])
        ⟨"h", some ContentType.BINARY, []⟩ ["home", "x.bin"]) = true := by
  have h := claim_C8_output_line_format
    ⟨"h", some ContentType.BINARY, []⟩ ["home", "x.bin"]
  exact ⟨h.2.1 ["home"] (by decide), h.2.2 ["other"] (by decide)⟩

set_option maxRecDepth 8000 in
/-- C9: a zero-length file is processed successfully (never Skipped): its
    record carries the fixed SHA-1 of the empty byte sequence and no
    content type, the worker answers with `Work::Parsed`, and the written
    line's content-type field is the literal `EMPTY`. -/
theorem claim_C9_empty_file :
    processFile [] =
      some ⟨"da39a3ee5e6b4b0d3255bfef95601890afd80709", none, []⟩ ∧
    workerSend (some (chunkify [])) ["r", "empty.txt"] 0 =
      [Work.parsed ⟨"da39a3ee5e6b4b0d3255bfef95601890afd80709", none, []⟩
        ["r", "empty.txt"] 0] ∧
    printHash Output.file
        ⟨"da39a3ee5e6b4b0d3255bfef95601890afd80709", none, []⟩
        ["r", "empty.txt"] =
      Except.ok
        "da39a3ee5e6b4b0d3255bfef95601890afd80709,EMPTY,r/empty.txt" := by
  refine ⟨by decide, by decide, congrArg Except.ok (by decide)⟩

/-- C10: `str_content` returns `None` exactly for unclassified or
    `BINARY` files, returns a string for the four UTF-8/UTF-16
    classifications, and panics on the UTF-32 classifications; a
    `Work::Parsed` message whose file classified as UTF-32 therefore
    makes the aggregator's message handler panic, aborting the run. -/
theorem claim_C10_str_content_totality (pf : ParsedFile) :
    (strContent pf = Except.ok none ↔
      pf.content_type = none ∨
        pf.content_type = some ContentType.BINARY) ∧
    ((∃ s, strContent pf = Except.ok (some s)) ↔
      (pf.content_type = some ContentType.UTF_8 ∨
       pf.content_type = some ContentType.UTF_8_BOM ∨
       pf.content_type = some ContentType.UTF_16LE ∨
       pf.content_type = some ContentType.UTF_16BE)) ∧
    (isErr (strContent pf) = true ↔
      (pf.content_type = some ContentType.UTF_32LE ∨
       pf.content_type = some ContentType.UTF_32BE)) ∧
    (∀ output st path i,
      (pf.content_type = some ContentType.UTF_32LE ∨
       pf.content_type = some ContentType.UTF_32BE) →
      isErr (aggStep output st (Work.parsed pf path i)) = true) := by
  obtain ⟨h, ct, c⟩ := pf
  have habort : ∀ output st path i,
      isErr (strContent (⟨h, ct, c⟩ : ParsedFile)) = true →
      isErr (aggStep output st
        (Work.parsed (⟨h, ct, c⟩ : ParsedFile) path i)) = true := by
    intro output st path i herr
    cases hp : printHash output ⟨h, ct, c⟩ path with
    | error e => simp [aggStep, hp, isErr]
    | ok line =>
      cases hs : strContent ⟨h, ct, c⟩ with
      | error e => simp [aggStep, hp, hs, isErr]
      | ok o => rw [hs] at herr; exact absurd herr (by simp [isErr])
  rcases ct with _ | x
  · exact ⟨by simp [strContent], by simp [strContent],
      by simp [strContent, isErr], fun output st path i hx => by
        simp at hx⟩
  · cases x with
    | BINARY =>
      exact ⟨by simp [strContent], by simp [strContent],
        by simp [strContent, isErr], fun output st path i hx => by
          simp at hx⟩
    | UTF_8 =>
      exact ⟨by simp [strContent], by simp [strContent],
        by simp [strContent, isErr], fun output st path i hx => by
          simp at hx⟩
    | UTF_8_BOM =>
      exact ⟨by simp [strContent], by simp [strContent],
        by simp [strContent, isErr], fun output st path i hx => by
          simp at hx⟩
    | UTF_16LE =>
      exact ⟨by simp [strContent], by simp [strContent],
        by simp [strContent, isErr], fun output st path i hx => by
          simp at hx⟩
    | UTF_16BE =>
      exact ⟨by simp [strContent], by simp [strContent],
        by simp [strContent, isErr], fun output st path i hx => by
          simp at hx⟩
    | UTF_32LE =>
      exact ⟨by simp [strContent], by simp [strContent],
        by simp [strContent, isErr], fun output st path i hx =>
          habort output st path i (by simp [strContent, isErr])⟩
    | UTF_32BE =>
      exact ⟨by simp [strContent], by simp [strContent],
        by simp [strContent, isErr], fun output st path i hx =>
          habort output st path i (by simp [strContent, isErr])⟩

/-- C10, witness: a file classified `UTF_32LE` makes `str_content`
    panic. -/
theorem claim_C10_witness :
    isErr (strContent ⟨"", some ContentType.UTF_32LE, []⟩) = true :=
  ((claim_C10_str_content_totality
      ⟨"", some ContentType.UTF_32LE, []⟩).2.2.1).mpr (Or.inl rfl)
